import Mathlib

/-!
# Verification of the testquery ingestion & correlation pipeline

Shallow embedding of the core of `danicat/testquery`: the event collector,
the coverage-profile handling, the function locator, the per-test
correlator, and the schema loader.  External effects (the `go test`
subprocess, the filesystem, the SQL engine) are modelled as explicit
parameters or explicit state, following the source's control flow
statement by statement.
-/

namespace TQ

/-! ## Character classes

`nonAlphanumeric = regexp.MustCompile("[^a-zA-Z0-9_]+")` — the word-class
of the sanitizer's regular expression. -/

def isWordChar (c : Char) : Bool :=
  ('a' ≤ c && c ≤ 'z') || ('A' ≤ c && c ≤ 'Z') || ('0' ≤ c && c ≤ '9') || c = '_'

/-! ## Test-name sanitizer (test_coverage collector, `sanitizeTestName`)

`nonAlphanumeric.ReplaceAllString(testName, "_")` replaces every
leftmost-longest match of `[^a-zA-Z0-9_]+` — i.e. every maximal run of
one or more non-word characters — with a single `_`.  `sanitizeChars`
implements that replacement as a left-to-right scan; the flag records
whether the scan is inside a run that has already emitted its `_`. -/

def sanitizeChars : Bool → List Char → List Char
  | _, [] => []
  | inRun, c :: rest =>
    if isWordChar c then c :: sanitizeChars false rest
    else if inRun then sanitizeChars true rest
    else '_' :: sanitizeChars true rest

def sanitizeTestName (s : String) : String :=
  ⟨sanitizeChars false s.data⟩

/-- The per-test profile artifact name: `coverageFile := sanitizedTestName + ".out"`. -/
def coverageFileName (testName : String) : String :=
  sanitizeTestName testName ++ ".out"

/-- Spec reading of the claim: replace every INDIVIDUAL character outside
`[A-Za-z0-9_]` with `_` (one `_` per character). -/
def sanitizePerCharSpec (s : String) : String :=
  ⟨s.data.map (fun c => if isWordChar c then c else '_')⟩

theorem dropWhile_length_le {α : Type} (p : α → Bool) (l : List α) :
    (l.dropWhile p).length ≤ l.length := by
  induction l with
  | nil => simp
  | cons a rest ih =>
    by_cases h : p a
    · simp only [List.dropWhile, h]
      exact Nat.le_succ_of_le ih
    · simp [List.dropWhile, h]

/-- Amended spec reading: replace every MAXIMAL RUN of characters outside
`[A-Za-z0-9_]` with a single `_`.  Written independently of
`sanitizeChars`, by explicit run-skipping. -/
def sanitizeRunsSpec : List Char → List Char
  | [] => []
  | c :: rest =>
    if isWordChar c then c :: sanitizeRunsSpec rest
    else '_' :: sanitizeRunsSpec (rest.dropWhile (fun d => !isWordChar d))
termination_by l => l.length
decreasing_by
  all_goals simp only [List.length_cons]
  · exact Nat.lt_succ_of_le (Nat.le_refl _)
  · exact Nat.lt_succ_of_le (dropWhile_length_le _ _)

/-! ## The function locator

`getFunctionName` parses a Go source file (`parser.ParseFile`) and walks
`node.Decls`.  In `go/ast`, `File.Decls` holds only the file's TOP-LEVEL
declarations; a function literal (closure) is an expression inside some
declaration's body and never appears in `Decls`.  The embedding therefore
models a parsed file as its list of top-level declarations, each function
declaration carrying the line range `fs.Position(d.Pos()).Line ..
fs.Position(d.End()).Line`. -/

structure FuncDecl where
  name : String
  startLine : Nat
  endLine : Nat
  deriving DecidableEq, Repr

inductive GoDecl
  /-- an `*ast.FuncDecl` -/
  | func (f : FuncDecl)
  /-- any other top-level declaration (import, var, const, type) -/
  | other
  deriving DecidableEq, Repr

structure GoFile where
  decls : List GoDecl
  deriving DecidableEq, Repr

/-- The declaration walk shared by both `getFunctionName` variants:
return the first `FuncDecl` in declaration order with
`start <= lineNumber && lineNumber <= end`. -/
def findFuncDecl (decls : List GoDecl) (lineNumber : Nat) : Option FuncDecl :=
  match decls with
  | [] => none
  | .func f :: rest =>
    if f.startLine ≤ lineNumber ∧ lineNumber ≤ f.endLine then some f
    else findFuncDecl rest lineNumber
  | .other :: rest => findFuncDecl rest lineNumber

namespace AstUtils

/-- `ast_utils.go` revision of `getFunctionName`: when no declaration
contains the line it returns `"", nil`.  The argument is the outcome of
`parser.ParseFile` (the filesystem read + parse, an external effect). -/
def getFunctionName (parseResult : Except String GoFile) (lineNumber : Nat) :
    Except String String :=
  match parseResult with
  | .error e => .error ("failed to parse file: " ++ e)
  | .ok node =>
    match findFuncDecl node.decls lineNumber with
    | some f => .ok f.name
    | none => .ok ""

end AstUtils

namespace Part003

/-- The test-coverage collector revision of `getFunctionName`: identical
walk, but when no declaration contains the line it returns the error
`function not found at line ...`. -/
def getFunctionName (parseResult : Except String GoFile) (lineNumber : Nat) :
    Except String String :=
  match parseResult with
  | .error e => .error ("failed to parse file: " ++ e)
  | .ok node =>
    match findFuncDecl node.decls lineNumber with
    | some f => .ok f.name
    | none => .error "function not found"

end Part003

/-- A line is contained in some top-level function declaration's range. -/
def lineInSomeFunc (file : GoFile) (lineNumber : Nat) : Prop :=
  ∃ f : FuncDecl, GoDecl.func f ∈ file.decls ∧
    f.startLine ≤ lineNumber ∧ lineNumber ≤ f.endLine

/-! ## Schema loader (`CreateTablesFromDDL`, internal/database/data.go)

The SQL engine is an external collaborator; it is modelled by a statement
executor `execStmt : String → α → Option α` over an abstract database
state `α` (`none` = the statement fails).  `Begin`/`Commit`/`Rollback`
semantics: statements execute against the transaction's private state,
which becomes visible only on commit; rollback discards it. -/

/-- `unicode.IsSpace` for the characters `strings.TrimSpace` strips
(ASCII whitespace plus NEL and NBSP; the remaining Unicode space
code points do not occur in schema scripts). -/
def goIsSpace (c : Char) : Bool :=
  c = ' ' || c = '\t' || c = '\n' || c = '\x0B' || c = '\x0C' || c = '\r' ||
    c = '\u0085' || c = '\u00A0'

/-- `strings.TrimSpace`. -/
def goTrimSpace (s : String) : String :=
  ⟨((s.data.dropWhile goIsSpace).reverse.dropWhile goIsSpace).reverse⟩

/-- The loop body of `CreateTablesFromDDL` inside the transaction:
trim each piece of `strings.Split(ddl, ";")`, skip empties, execute the
rest in order, stopping at the first failure. -/
def execStmts {α : Type} (execStmt : String → α → Option α) :
    List String → α → Option α
  | [], db => some db
  | stmt :: rest, db =>
    let t := goTrimSpace stmt
    if t = "" then execStmts execStmt rest db
    else
      match execStmt t db with
      | none => none
      | some db2 => execStmts execStmt rest db2

/-- `strings.Split(s, ";")`: the pieces of `s` between occurrences of the
separator (`n` separators yield `n+1` pieces). -/
def splitOnSemi (l : List Char) : List String :=
  go l []
where
  go : List Char → List Char → List String
    | [], acc => [⟨acc.reverse⟩]
    | c :: rest, acc =>
      if c = ';' then ⟨acc.reverse⟩ :: go rest [] else go rest (c :: acc)

/-- `CreateTablesFromDDL`: split the script on `;`, run every statement in
one transaction, roll back on the first failure (visible state reverts to
the pre-transaction state), commit otherwise.  Returns the visible
database state and whether an error was returned. -/
def CreateTablesFromDDL {α : Type} (execStmt : String → α → Option α)
    (db : α) (ddl : String) : α × Bool :=
  match execStmts execStmt (splitOnSemi ddl.data) db with
  | some db2 => (db2, true)
  | none => (db, false)

/-! ## The test-event stream decoder (`parseTestOutput`, internal collector)

`go test -json` emits one JSON object per line; `parseTestOutput` decodes
them with a `json.Decoder` in a loop, stopping at `io.EOF`.  The decoder
itself is the standard library (an external collaborator); it is modelled
here by a small JSON value parser: a `Decode` call skips leading
whitespace, reads one complete JSON value, and reports end-of-stream when
only whitespace remains.  Parsers return the unconsumed suffix together
with a proof that they consumed at least one character (resp. consumed
nothing or more), which is what makes the decode loop terminate. -/

def isJsonWs (c : Char) : Bool :=
  c = ' ' || c = '\t' || c = '\n' || c = '\r'

inductive Json where
  | null
  | bool (b : Bool)
  /-- a number, kept as its validated lexeme (Go decodes it to a float) -/
  | num (lexeme : String)
  | str (s : String)
  | arr (elems : List Json)
  | obj (fields : List (String × Json))
  deriving Repr

def hexVal (c : Char) : Option Nat :=
  if '0' ≤ c ∧ c ≤ '9' then some (c.toNat - '0'.toNat)
  else if 'a' ≤ c ∧ c ≤ 'f' then some (c.toNat - 'a'.toNat + 10)
  else if 'A' ≤ c ∧ c ≤ 'F' then some (c.toNat - 'A'.toNat + 10)
  else none

/-- Decoded code point of a `\uXXXX` escape; an invalid scalar value
(e.g. a lone surrogate) becomes the replacement character, as in Go. -/
def uniChar (n : Nat) : Char :=
  if n.isValidChar then Char.ofNat n else '�'

def escChar (c : Char) : Option Char :=
  match c with
  | '"' => some '"'
  | '\\' => some '\\'
  | '/' => some '/'
  | 'b' => some '\x08'
  | 'f' => some '\x0C'
  | 'n' => some '\n'
  | 'r' => some '\r'
  | 't' => some '\t'
  | _ => none

/-- Body of a string literal, after the opening quote: decoded characters
plus the suffix after the closing quote (strictly shorter input, since at
least the closing quote is consumed). -/
def parseStringBody :
    (l : List Char) →
      Except String (List Char × { rest : List Char // rest.length < l.length })
  | [] => .error "unexpected end of JSON input"
  | '"' :: rest => .ok ([], ⟨rest, by simp⟩)
  | '\\' :: rest =>
    match rest with
    | [] => .error "unexpected end of JSON input"
    | 'u' :: h1 :: h2 :: h3 :: h4 :: rest3 =>
      match hexVal h1, hexVal h2, hexVal h3, hexVal h4 with
      | some a, some b, some c, some d =>
        match parseStringBody rest3 with
        | .error e => .error e
        | .ok (s, ⟨r, hr⟩) =>
          .ok (uniChar (((a * 16 + b) * 16 + c) * 16 + d) :: s,
            ⟨r, by simp only [List.length_cons]; omega⟩)
      | _, _, _, _ => .error "invalid character in string escape code"
    | e :: rest2 =>
      match escChar e with
      | none => .error "invalid character in string escape code"
      | some c =>
        match parseStringBody rest2 with
        | .error err => .error err
        | .ok (s, ⟨r, hr⟩) =>
          .ok (c :: s, ⟨r, by simp only [List.length_cons]; omega⟩)
  | c :: rest =>
    match parseStringBody rest with
    | .error e => .error e
    | .ok (s, ⟨r, hr⟩) =>
      .ok (c :: s, ⟨r, by simp only [List.length_cons]; omega⟩)

/-- A non-empty run of decimal digits (errors when the input does not
start with a digit). -/
def parseDigits1 (l : List Char) :
    Except String (List Char × { rest : List Char // rest.length < l.length }) :=
  match l with
  | d :: tl =>
    if d.isDigit then
      .ok (d :: tl.takeWhile Char.isDigit,
        ⟨tl.dropWhile Char.isDigit, by
          have := dropWhile_length_le Char.isDigit tl
          simp only [List.length_cons]; omega⟩)
    else .error "invalid number"
  | [] => .error "invalid number"

/-- Optional fraction part `.digits` of a number (consumes nothing when
absent). -/
def parseFrac (l : List Char) :
    Except String (List Char × { rest : List Char // rest.length ≤ l.length }) :=
  match l with
  | '.' :: t =>
    match parseDigits1 t with
    | .error e => .error e
    | .ok (ds, ⟨r, hr⟩) =>
      .ok ('.' :: ds, ⟨r, by simp only [List.length_cons]; omega⟩)
  | other => .ok ([], ⟨other, Nat.le_refl _⟩)

/-- Optional exponent part `e[+-]digits` of a number. -/
def parseExpPart (l : List Char) :
    Except String (List Char × { rest : List Char // rest.length ≤ l.length }) :=
  match l with
  | e :: t =>
    if e = 'e' ∨ e = 'E' then
      match t with
      | '+' :: t2 =>
        match parseDigits1 t2 with
        | .error err => .error err
        | .ok (ds, ⟨r, hr⟩) =>
          .ok (e :: '+' :: ds, ⟨r, by simp only [List.length_cons]; omega⟩)
      | '-' :: t2 =>
        match parseDigits1 t2 with
        | .error err => .error err
        | .ok (ds, ⟨r, hr⟩) =>
          .ok (e :: '-' :: ds, ⟨r, by simp only [List.length_cons]; omega⟩)
      | other2 =>
        match parseDigits1 other2 with
        | .error err => .error err
        | .ok (ds, ⟨r, hr⟩) =>
          .ok (e :: ds, ⟨r, by simp only [List.length_cons]; omega⟩)
    else .ok ([], ⟨e :: t, Nat.le_refl _⟩)
  | [] => .ok ([], ⟨[], Nat.le_refl _⟩)

/-- Digits of a number after the optional minus sign: `0` alone, or a
nonzero digit followed by digits, then fraction and exponent.  Consumes
at least the first digit. -/
def parseNumAfterSign (l : List Char) :
    Except String (List Char × { rest : List Char // rest.length < l.length }) :=
  match l with
  | '0' :: tail =>
    match parseFrac tail with
    | .error e => .error e
    | .ok (fr, ⟨r1, hr1⟩) =>
      match parseExpPart r1 with
      | .error e => .error e
      | .ok (ex, ⟨r2, hr2⟩) =>
        .ok ('0' :: (fr ++ ex), ⟨r2, by simp only [List.length_cons]; omega⟩)
  | other =>
    match parseDigits1 other with
    | .error e => .error e
    | .ok (ds, ⟨r, hr⟩) =>
      match parseFrac r with
      | .error e => .error e
      | .ok (fr, ⟨r1, hr1⟩) =>
        match parseExpPart r1 with
        | .error e => .error e
        | .ok (ex, ⟨r2, hr2⟩) =>
          .ok (ds ++ fr ++ ex, ⟨r2, by omega⟩)

/-- A JSON number: optional minus sign then digits/fraction/exponent. -/
def parseNumber (l : List Char) :
    Except String (List Char × { rest : List Char // rest.length < l.length }) :=
  match l with
  | '-' :: l1 =>
    match parseNumAfterSign l1 with
    | .error e => .error e
    | .ok (ds, ⟨r, hr⟩) =>
      .ok ('-' :: ds, ⟨r, by simp only [List.length_cons]; omega⟩)
  | other => parseNumAfterSign other

mutual

/-- One JSON value (leading whitespace already skipped).  The fuel bounds
the recursion depth; two call levels always consume at least one input
character, so any fuel above twice the input length never runs out
(mirroring the standard decoder's bounded nesting depth). -/
def parseValue : Nat → (l : List Char) →
    Except String (Json × { rest : List Char // rest.length < l.length })
  | 0, _ => .error "exceeded max depth"
  | fuel + 1, l =>
    match l with
    | 'n' :: 'u' :: 'l' :: 'l' :: rest =>
      .ok (.null, ⟨rest, by simp only [List.length_cons]; omega⟩)
    | 't' :: 'r' :: 'u' :: 'e' :: rest =>
      .ok (.bool true, ⟨rest, by simp only [List.length_cons]; omega⟩)
    | 'f' :: 'a' :: 'l' :: 's' :: 'e' :: rest =>
      .ok (.bool false, ⟨rest, by simp only [List.length_cons]; omega⟩)
    | '"' :: rest =>
      match parseStringBody rest with
      | .error e => .error e
      | .ok (s, ⟨r, hr⟩) =>
        .ok (.str ⟨s⟩, ⟨r, by simp only [List.length_cons]; omega⟩)
    | '[' :: rest =>
      match parseArrayItems fuel (rest.dropWhile isJsonWs) true with
      | .error e => .error e
      | .ok (vs, ⟨r, hr⟩) =>
        .ok (.arr vs, ⟨r, by
          have := dropWhile_length_le isJsonWs rest
          simp only [List.length_cons]; omega⟩)
    | '{' :: rest =>
      match parseObjectItems fuel (rest.dropWhile isJsonWs) true with
      | .error e => .error e
      | .ok (fs, ⟨r, hr⟩) =>
        .ok (.obj fs, ⟨r, by
          have := dropWhile_length_le isJsonWs rest
          simp only [List.length_cons]; omega⟩)
    | other =>
      match parseNumber other with
      | .error e => .error e
      | .ok (ds, r) => .ok (.num ⟨ds⟩, r)

/-- Elements of an array after `[` (whitespace skipped); `first` marks
whether no element has been parsed yet, so that `]` may close an empty
array. -/
def parseArrayItems : Nat → (l : List Char) → Bool →
    Except String (List Json × { rest : List Char // rest.length ≤ l.length })
  | 0, _, _ => .error "exceeded max depth"
  | fuel + 1, l, first =>
    match l with
    | ']' :: rest =>
      if first then .ok ([], ⟨rest, by simp only [List.length_cons]; omega⟩)
      else .error "invalid character looking for beginning of value"
    | other =>
      match parseValue fuel other with
      | .error e => .error e
      | .ok (v, ⟨r1, h1⟩) =>
        match h2 : r1.dropWhile isJsonWs with
        | ']' :: rest2 =>
          .ok ([v], ⟨rest2, by
            have h3 := dropWhile_length_le isJsonWs r1
            rw [h2] at h3
            simp only [List.length_cons] at h3
            omega⟩)
        | ',' :: rest2 =>
          match parseArrayItems fuel (rest2.dropWhile isJsonWs) false with
          | .error e => .error e
          | .ok (vs, ⟨r3, h4⟩) =>
            .ok (v :: vs, ⟨r3, by
              have h3 := dropWhile_length_le isJsonWs r1
              rw [h2] at h3
              have h5 := dropWhile_length_le isJsonWs rest2
              simp only [List.length_cons] at h3
              omega⟩)
        | _ => .error "invalid character after array element"

/-- Members of an object after `{` (whitespace skipped). -/
def parseObjectItems : Nat → (l : List Char) → Bool →
    Except String (List (String × Json) × { rest : List Char // rest.length ≤ l.length })
  | 0, _, _ => .error "exceeded max depth"
  | fuel + 1, l, first =>
    match l with
    | '}' :: rest =>
      if first then .ok ([], ⟨rest, by simp only [List.length_cons]; omega⟩)
      else .error "invalid character looking for beginning of object key string"
    | '"' :: rest =>
      match parseStringBody rest with
      | .error e => .error e
      | .ok (k, ⟨r1, h1⟩) =>
        match h2 : r1.dropWhile isJsonWs with
        | ':' :: r2 =>
          match parseValue fuel (r2.dropWhile isJsonWs) with
          | .error e => .error e
          | .ok (v, ⟨r3, h3⟩) =>
            match h4 : r3.dropWhile isJsonWs with
            | '}' :: r4 =>
              .ok ([(⟨k⟩, v)], ⟨r4, by
                have d1 := dropWhile_length_le isJsonWs r1
                rw [h2] at d1
                have d2 := dropWhile_length_le isJsonWs r2
                have d3 := dropWhile_length_le isJsonWs r3
                rw [h4] at d3
                simp only [List.length_cons] at d1 d3 ⊢
                omega⟩)
            | ',' :: r4 =>
              match parseObjectItems fuel (r4.dropWhile isJsonWs) false with
              | .error e => .error e
              | .ok (fs, ⟨r5, h5⟩) =>
                .ok ((⟨k⟩, v) :: fs, ⟨r5, by
                  have d1 := dropWhile_length_le isJsonWs r1
                  rw [h2] at d1
                  have d2 := dropWhile_length_le isJsonWs r2
                  have d3 := dropWhile_length_le isJsonWs r3
                  rw [h4] at d3
                  have d4 := dropWhile_length_le isJsonWs r4
                  simp only [List.length_cons] at d1 d3 ⊢
                  omega⟩)
            | _ => .error "invalid character after object key-value pair"
        | _ => .error "invalid character after object key"
    | _ => .error "invalid character looking for beginning of object key string"

end

/-! ## TestEvent and the decode of one record

```
type TestEvent struct {
    Time        time.Time  json:"time"
    Action      string     json:"action"
    Package     string     json:"package"
    Test        string     json:"test"
    Elapsed     *float64   json:"elapsed,omitempty"
    Output      *string    json:"output,omitempty"
    FailedBuild *string    json:"FailedBuild,omitempty"
}
```
`time` keeps the raw timestamp text (`time.Time` accepts exactly a JSON
string; the RFC3339 shape of that string is validated by the external
`time` package and is not modelled).  `elapsed` keeps the numeric lexeme
(Go stores a float). -/

structure TestEvent where
  time : String := ""
  action : String := ""
  package : String := ""
  test : String := ""
  elapsed : Option String := none
  output : Option String := none
  failedBuild : Option String := none
  deriving DecidableEq, Repr

/-- ASCII lower-casing of one character. -/
def asciiToLower (c : Char) : Char :=
  if 'A' ≤ c ∧ c ≤ 'Z' then Char.ofNat (c.toNat + 32) else c

/-- `encoding/json` matches object keys to struct fields
case-insensitively (`strings.EqualFold`; ASCII folding suffices for the
tags in play). -/
def eqFold (a b : String) : Bool := a.data.map asciiToLower = b.data.map asciiToLower

/-- Decode one object member into the event under construction: known
fields require the matching JSON type, `null` is a no-op, unknown fields
are ignored — as `encoding/json` does. -/
def applyField (ev : TestEvent) (key : String) (v : Json) : Except String TestEvent :=
  if eqFold key "time" then
    match v with
    | .str s => .ok { ev with time := s }
    | .null => .ok ev
    | _ => .error "cannot unmarshal into field Time"
  else if eqFold key "action" then
    match v with
    | .str s => .ok { ev with action := s }
    | .null => .ok ev
    | _ => .error "cannot unmarshal into field Action"
  else if eqFold key "package" then
    match v with
    | .str s => .ok { ev with package := s }
    | .null => .ok ev
    | _ => .error "cannot unmarshal into field Package"
  else if eqFold key "test" then
    match v with
    | .str s => .ok { ev with test := s }
    | .null => .ok ev
    | _ => .error "cannot unmarshal into field Test"
  else if eqFold key "elapsed" then
    match v with
    | .num n => .ok { ev with elapsed := some n }
    | .null => .ok ev
    | _ => .error "cannot unmarshal into field Elapsed"
  else if eqFold key "output" then
    match v with
    | .str s => .ok { ev with output := some s }
    | .null => .ok ev
    | _ => .error "cannot unmarshal into field Output"
  else if eqFold key "FailedBuild" then
    match v with
    | .str s => .ok { ev with failedBuild := some s }
    | .null => .ok ev
    | _ => .error "cannot unmarshal into field FailedBuild"
  else .ok ev

/-- Unmarshal one decoded JSON value into a fresh `TestEvent` (the loop
declares `var event TestEvent` anew per record).  A JSON `null` leaves
the zero value; any non-object, non-null value is a type error. -/
def toTestEvent (j : Json) : Except String TestEvent :=
  match j with
  | .obj fields => fields.foldlM (fun ev kv => applyField ev kv.1 kv.2) {}
  | .null => .ok {}
  | _ => .error "cannot unmarshal into TestEvent"

/-- Outcome of one `decoder.Decode(&event)` call on a buffer of `n`
remaining characters: end of stream, a decode error, or one event plus
the strictly shorter remainder. -/
inductive DecodeStep (n : Nat) where
  | eof
  | fail (e : String)
  | next (ev : TestEvent) (rest : { l : List Char // l.length < n })

/-- One `Decode` call: skip whitespace; end of input is `io.EOF`;
otherwise read one JSON value and unmarshal it. -/
def decodeOne (input : List Char) : DecodeStep input.length :=
  match h : input.dropWhile isJsonWs with
  | [] => .eof
  | c :: rest =>
    match parseValue (2 * input.length + 2) (c :: rest) with
    | .error e => .fail e
    | .ok (j, ⟨r, hr⟩) =>
      match toTestEvent j with
      | .error e => .fail e
      | .ok ev =>
        .next ev ⟨r, by
          have := dropWhile_length_le isJsonWs input
          rw [h] at this
          simp only [List.length_cons] at this hr
          omega⟩

/-- The decode loop of `parseTestOutput`:

```
for {
    var event TestEvent
    if err := decoder.Decode(&event); err == io.EOF {
        break
    } else if err != nil {
        return nil, err
    }
    result = append(result, event)
}
```
The fuel argument only bounds the number of iterations; every successful
`Decode` consumes at least one character, so fuel exceeding the input
length can never run out (`decodeLoopF_fuel_irrelevant`). -/
def decodeLoopF : Nat → (input : List Char) → Except String (List TestEvent)
  | 0, _ => .error "decode loop out of fuel"
  | fuel + 1, input =>
    match decodeOne input with
    | .eof => .ok []
    | .fail e => .error e
    | .next ev rest =>
      match decodeLoopF fuel rest.val with
      | .error e => .error e
      | .ok evs => .ok (ev :: evs)

/-- `parseTestOutput` (internal/collector revision): decode the whole
captured stream. -/
def parseTestOutput (output : String) : Except String (List TestEvent) :=
  decodeLoopF (output.data.length + 1) output.data

/-! ## The event collector (`collectTestResults`, internal/collector)

The `go test -json` subprocess is external; it is modelled by whether the
command could launch at all (`cmd.Run` failing with something other than
an `*exec.ExitError`) and by the bytes it wrote to stdout.  A non-zero
exit (tests failed) is not an error at this layer. -/

structure GoTestRun where
  launchOk : Bool
  stdout : String

def isBuildFailEvent (e : TestEvent) : Bool :=
  e.action = "fail" &&
    (match e.failedBuild with
     | some s => s ≠ ""
     | none => false)

/-- A record participates in correlation: non-empty test name and action
`pass` or `fail`. -/
def participates (e : TestEvent) : Bool :=
  !(e.test = "" || (e.action ≠ "pass" && e.action ≠ "fail"))

def collectTestResults (run : GoTestRun) : Except String (List TestEvent) :=
  if !run.launchOk then .error "failed to run go test"
  else
    match parseTestOutput run.stdout with
    | .error e => .error ("failed to parse test output: " ++ e)
    | .ok tests =>
      match tests.find? isBuildFailEvent with
      | some e => .error ("build failed for package " ++ e.failedBuild.getD "")
      | none => .ok (tests.filter participates)

/-! ## Coverage profiles and path helpers

`cover.ParseProfiles` (external library `golang.org/x/tools/cover`) yields
per-file profiles of statement blocks; its outcome is passed in as a
parameter wherever the source calls it. -/

structure ProfileBlock where
  startLine : Nat
  startCol : Nat
  endLine : Nat
  endCol : Nat
  numStmt : Nat
  count : Nat
  deriving DecidableEq, Repr

structure Profile where
  fileName : String
  blocks : List ProfileBlock
  deriving DecidableEq, Repr

def stripTrailingSlashes (l : List Char) : List Char :=
  (l.reverse.dropWhile (· = '/')).reverse

/-- `filepath.Base`: the last element of the path, after dropping
trailing separators; `"."` for the empty path, `"/"` for all-slash
paths. -/
def filepathBase (p : String) : String :=
  if p = "" then "."
  else
    let l := stripTrailingSlashes p.data
    if l = [] then "/"
    else ⟨(l.reverse.takeWhile (· ≠ '/')).reverse⟩

/-- `filepath.Dir`: everything before the final element, with trailing
separators dropped; `"."` when the path holds no separator.  (`Clean`'s
`.`/`..` resolution is not reproduced: profile file names are plain
import-style paths without dot elements.) -/
def filepathDir (p : String) : String :=
  let upToSlash := (p.data.reverse.dropWhile (· ≠ '/')).reverse
  let d := stripTrailingSlashes upToSlash
  if d = [] then (if upToSlash = [] then "." else "/") else ⟨d⟩

/-- One row of `all_coverage` / the collected aggregate result.  The
`main`-package revision names the line fields `FromLine`/`ToLine` …; the
collector revision names them `StartLine`/`EndLine` …; both persist to
the same `start_line`/`end_line` columns. -/
structure CoverageResult where
  package : String
  file : String
  startLine : Nat
  startCol : Nat
  endLine : Nat
  endCol : Nat
  stmtNum : Nat
  count : Nat
  functionName : String
  deriving DecidableEq, Repr

namespace MainRev

/-- Rows for the blocks of one profile in `coverage.go`'s
`collectCoverageResults`: a `getFunctionName` failure is fatal. -/
def coverageRowsForBlocks (parsed : Except String GoFile) (pkgName fileName : String) :
    List ProfileBlock → Except String (List CoverageResult)
  | [] => .ok []
  | b :: rest =>
    match AstUtils.getFunctionName parsed b.startLine with
    | .error e => .error ("failed to retrieve function name: " ++ e)
    | .ok fn =>
      match coverageRowsForBlocks parsed pkgName fileName rest with
      | .error e => .error e
      | .ok rows =>
        .ok ({ package := pkgName, file := fileName,
               startLine := b.startLine, startCol := b.startCol,
               endLine := b.endLine, endCol := b.endCol,
               stmtNum := b.numStmt, count := b.count,
               functionName := fn } :: rows)

/-- `collectCoverageResults` (main-package revision, coverage.go): walk
the aggregate profile, resolving every block's function name through the
ast_utils locator on `pkgDir + "/" + base(fileName)`. -/
def collectCoverageResults (sourceFile : String → Except String GoFile)
    (pkgDir : String) (profilesResult : Except String (List Profile)) :
    Except String (List CoverageResult) :=
  match profilesResult with
  | .error e => .error e
  | .ok profiles => go profiles
where
  go : List Profile → Except String (List CoverageResult)
    | [] => .ok []
    | p :: rest =>
      match coverageRowsForBlocks (sourceFile (pkgDir ++ "/" ++ filepathBase p.fileName))
          (filepathDir p.fileName) (filepathBase p.fileName) p.blocks with
      | .error e => .error e
      | .ok rows =>
        match go rest with
        | .error e => .error e
        | .ok more => .ok (rows ++ more)

end MainRev

namespace CollectorRev

/-- `collectCoverageResults` (internal/collector revision): the rows copy
the profile's file name into both `package` and `file` and leave
`functionName` empty; no locator is consulted. -/
def collectCoverageResults (profilesResult : Except String (List Profile)) :
    Except String (List CoverageResult) :=
  match profilesResult with
  | .error e => .error ("failed to parse coverage profiles: " ++ e)
  | .ok profiles =>
    .ok (profiles.flatMap fun p =>
      p.blocks.map fun b =>
        { package := p.fileName, file := p.fileName,
          startLine := b.startLine, startCol := b.startCol,
          endLine := b.endLine, endCol := b.endCol,
          stmtNum := b.numStmt, count := b.count,
          functionName := "" })

end CollectorRev

/-! ## The per-test correlator (`collectTestCoverageResults`, part_003 revision)

External effects: the isolated `go test -run ^name$ -coverprofile=file`
invocation, the filesystem holding the artifact file, `cover.ParseProfiles`
and `parser.ParseFile`.  The filesystem is a duplicate-free list of file
names threaded through the loop; the other effects are deterministic
functions supplied as the environment. -/

structure TestCoverageResult where
  testName : String
  package : String
  file : String
  startLine : Nat
  startCol : Nat
  endLine : Nat
  endCol : Nat
  stmtNum : Nat
  count : Nat
  functionName : String
  deriving DecidableEq, Repr

/-- Outcome of `cmd.Run()` for one isolated re-run. -/
inductive RunOutcome where
  /-- exit status zero -/
  | ok
  /-- non-zero exit reported as `*exec.ExitError`: the test failed -/
  | exitFailure
  /-- any other error (e.g. the binary cannot be launched): fatal -/
  | launchFailure
  deriving DecidableEq, Repr

structure CorrelatorEnv where
  /-- result of the isolated re-run, keyed by test name -/
  runTest : String → RunOutcome
  /-- `cover.ParseProfiles` on the named artifact file -/
  parseProfiles : String → Except String (List Profile)
  /-- `parser.ParseFile` per source path -/
  sourceFile : String → Except String GoFile

/-- The filesystem: which files exist.  The harness writes the profile
artifact whenever it ran (exit zero or a test failure); a launch failure
leaves no file.  `os.Remove` on a missing file only yields an ignored
error. -/
def fsCreate (fs : List String) (f : String) : List String :=
  if f ∈ fs then fs else f :: fs

def fsRemove (fs : List String) (f : String) : List String :=
  fs.erase f

/-- Inner block loop of one successfully parsed per-test profile: a
`getFunctionName` error is logged and skips just that block. -/
def blockRows (parsed : Except String GoFile) (testName pkgName fileName : String)
    (blocks : List ProfileBlock) : List TestCoverageResult :=
  blocks.filterMap fun b =>
    match Part003.getFunctionName parsed b.startLine with
    | .error _ => none
    | .ok fn =>
      some { testName := testName, package := pkgName, file := fileName,
             startLine := b.startLine, startCol := b.startCol,
             endLine := b.endLine, endCol := b.endCol,
             stmtNum := b.numStmt, count := b.count,
             functionName := fn }

/-- Rows contributed by one test's parsed profiles. -/
def profileRows (env : CorrelatorEnv) (pkgDir testName : String)
    (profiles : List Profile) : List TestCoverageResult :=
  profiles.flatMap fun p =>
    blockRows (env.sourceFile (pkgDir ++ "/" ++ filepathBase p.fileName))
      testName (filepathDir p.fileName) (filepathBase p.fileName) p.blocks

/-- `collectTestCoverageResults` (part_003 revision).  Returns the final
filesystem and the function's result:

* launch failure → artifact removed, fatal error;
* test failure (`*exec.ExitError`) → artifact removed, test skipped;
* profile parse failure → artifact removed, test skipped;
* success → artifact removed, rows appended. -/
def collectTestCoverageResults (env : CorrelatorEnv) (pkgDir : String) :
    List TestEvent → List String → List String × Except String (List TestCoverageResult)
  | [], fs => (fs, .ok [])
  | test :: rest, fs =>
    let coverageFile := coverageFileName test.test
    match env.runTest test.test with
    | .launchFailure =>
      (fsRemove fs coverageFile, .error "failed to run go test for coverage")
    | .exitFailure =>
      collectTestCoverageResults env pkgDir rest
        (fsRemove (fsCreate fs coverageFile) coverageFile)
    | .ok =>
      let fs1 := fsCreate fs coverageFile
      let parsed := env.parseProfiles coverageFile
      let fs2 := fsRemove fs1 coverageFile
      match parsed with
      | .error _ => collectTestCoverageResults env pkgDir rest fs2
      | .ok profiles =>
        match collectTestCoverageResults env pkgDir rest fs2 with
        | (fs3, .error e) => (fs3, .error e)
        | (fs3, .ok more) =>
          (fs3, .ok (profileRows env pkgDir test.test profiles ++ more))

/-- The rows a fully processed test contributes (empty when its profile
does not parse). -/
def testRows (env : CorrelatorEnv) (pkgDir : String) (test : TestEvent) :
    List TestCoverageResult :=
  match env.parseProfiles (coverageFileName test.test) with
  | .error _ => []
  | .ok profiles => profileRows env pkgDir test.test profiles

/-- The test's isolated re-run and profile parse both succeed. -/
def goodTest (env : CorrelatorEnv) (test : TestEvent) : Prop :=
  env.runTest test.test = .ok ∧
    ∃ profiles, env.parseProfiles (coverageFileName test.test) = .ok profiles

/-- The test hits one of the two recoverable failures: its isolated
re-run fails, or its profile does not parse. -/
def badTest (env : CorrelatorEnv) (test : TestEvent) : Prop :=
  env.runTest test.test = .exitFailure ∨
    (env.runTest test.test = .ok ∧
      ∃ e, env.parseProfiles (coverageFileName test.test) = .error e)

/-- Net filesystem effect of one non-fatal iteration: the artifact is
written and removed again. -/
def stepFs (fs : List String) (test : TestEvent) : List String :=
  fsRemove (fsCreate fs (coverageFileName test.test)) (coverageFileName test.test)

/-! ## The population pipeline (`PopulateTables`, internal/database/data.go)

Each `PopulateX` collects its rows and inserts them one by one into its
table; the store is modelled as the lists of inserted rows per table (the
SQL engine's own insert failures are an external fault mode that aborts
the pass, and are not modelled here).  `PopulateTables` chains the four
passes, wrapping each failure with the pass's identity, and — decisive
for the cross-table invariant — hands `PopulateTestCoverageResults`
exactly the event list `PopulateTestResults` returned. -/

structure CodeLine where
  package : String
  file : String
  lineNumber : Nat
  content : String
  deriving DecidableEq, Repr

structure DB where
  all_tests : List TestEvent := []
  all_coverage : List CoverageResult := []
  test_coverage : List TestCoverageResult := []
  all_code : List CodeLine := []
  deriving DecidableEq, Repr

structure PipelineEnv where
  goTest : GoTestRun
  /-- `cover.ParseProfiles("coverage.out")` for the aggregate pass -/
  aggProfiles : Except String (List Profile)
  correlator : CorrelatorEnv
  /-- outcome of `collectCodeLines` (a filesystem walk) -/
  codeLines : Except String (List CodeLine)

def PopulateTestResults (env : PipelineEnv) (db : DB) :
    Except String (DB × List TestEvent) :=
  match collectTestResults env.goTest with
  | .error e => .error ("failed to collect test results: " ++ e)
  | .ok testResults =>
    .ok ({ db with all_tests := db.all_tests ++ testResults }, testResults)

def PopulateCoverageResults (env : PipelineEnv) (db : DB) : Except String DB :=
  match CollectorRev.collectCoverageResults env.aggProfiles with
  | .error e => .error ("failed to collect coverage results: " ++ e)
  | .ok rows => .ok { db with all_coverage := db.all_coverage ++ rows }

def PopulateTestCoverageResults (env : PipelineEnv) (pkgDir : String) (db : DB)
    (testResults : List TestEvent) (fs : List String) :
    Except String (DB × List String) :=
  match collectTestCoverageResults env.correlator pkgDir testResults fs with
  | (_, .error e) => .error ("failed to collect coverage results by test: " ++ e)
  | (fs2, .ok rows) =>
    .ok ({ db with test_coverage := db.test_coverage ++ rows }, fs2)

def PopulateCode (env : PipelineEnv) (db : DB) : Except String DB :=
  match env.codeLines with
  | .error e => .error ("failed to collect code lines: " ++ e)
  | .ok lines => .ok { db with all_code := db.all_code ++ lines }

def PopulateTables (env : PipelineEnv) (pkgDir : String) (db : DB) (fs : List String) :
    Except String (DB × List String) :=
  match PopulateTestResults env db with
  | .error e => .error ("failed to populate test results: " ++ e)
  | .ok (db1, testResults) =>
    match PopulateCoverageResults env db1 with
    | .error e => .error ("failed to populate coverage results: " ++ e)
    | .ok db2 =>
      match PopulateTestCoverageResults env pkgDir db2 testResults fs with
      | .error e => .error ("failed to populate test coverage results: " ++ e)
      | .ok (db3, fs2) =>
        match PopulateCode env db3 with
        | .error e => .error ("failed to populate code: " ++ e)
        | .ok db4 => .ok (db4, fs2)

/-! ## Concrete scenario material for the closed instances -/

/-- A parsed source file with function `F` on lines 3–5 and `G` on
lines 7–9 (the spec's scenario file). -/
def wFileFG : GoFile := ⟨[.func ⟨"F", 3, 5⟩, .func ⟨"G", 7, 9⟩]⟩

/-- A profile with one covered block in `F` (count 1) and one in `G`
(count 0). -/
def wProfileFG : Profile := ⟨"pkg/foo.go", [⟨3, 1, 5, 2, 1, 1⟩, ⟨7, 1, 9, 2, 1, 0⟩]⟩

/-- A correlator world where `TestB`'s isolated re-run fails, `TestD`'s
profile does not parse, and everything else succeeds. -/
def wEnv : CorrelatorEnv :=
  { runTest := fun n => if n = "TestB" then .exitFailure else .ok
    parseProfiles := fun f => if f = "TestD.out" then .error "bad profile" else .ok [wProfileFG]
    sourceFile := fun _ => .ok wFileFG }

def evA : TestEvent := { action := "pass", test := "TestA" }

def evB : TestEvent := { action := "fail", test := "TestB" }

def evC : TestEvent := { action := "pass", test := "TestC" }

def evD : TestEvent := { action := "pass", test := "TestD" }

/-- A captured `go test -json` stream holding a pass event, a skip event
and a package-level output event. -/
def wRunC8 : GoTestRun :=
  { launchOk := true
    stdout := "\x7b\"action\":\"pass\",\"test\":\"TestA\"\x7d\n\x7b\"action\":\"skip\",\"test\":\"TestB\"\x7d\n\x7b\"action\":\"output\",\"package\":\"p\"\x7d\n" }

def wTestsC8 : List TestEvent :=
  [{ action := "pass", test := "TestA" },
   { action := "skip", test := "TestB" },
   { action := "output", package := "p" }]

def wPipeEnv : PipelineEnv :=
  { goTest := { launchOk := true, stdout := "\x7b\"action\":\"pass\",\"test\":\"TestA\"\x7d\n" }
    aggProfiles := .ok [wProfileFG]
    correlator := wEnv
    codeLines := .ok [] }

/-- The aggregate rows of the F/G scenario as coverage.go emits them. -/
def wRowsFG : List CoverageResult :=
  [{ package := "pkg", file := "foo.go", startLine := 3, startCol := 1,
     endLine := 5, endCol := 2, stmtNum := 1, count := 1, functionName := "F" },
   { package := "pkg", file := "foo.go", startLine := 7, startCol := 1,
     endLine := 9, endCol := 2, stmtNum := 1, count := 0, functionName := "G" }]

/-- The database contents `PopulateTables` materializes in `wPipeEnv`. -/
def wDB9 : DB :=
  { all_tests := [{ action := "pass", test := "TestA" }]
    all_coverage := [
      { package := "pkg/foo.go", file := "pkg/foo.go", startLine := 3, startCol := 1,
        endLine := 5, endCol := 2, stmtNum := 1, count := 1, functionName := "" },
      { package := "pkg/foo.go", file := "pkg/foo.go", startLine := 7, startCol := 1,
        endLine := 9, endCol := 2, stmtNum := 1, count := 0, functionName := "" }]
    test_coverage := [
      { testName := "TestA", package := "pkg", file := "foo.go", startLine := 3, startCol := 1,
        endLine := 5, endCol := 2, stmtNum := 1, count := 1, functionName := "F" },
      { testName := "TestA", package := "pkg", file := "foo.go", startLine := 7, startCol := 1,
        endLine := 9, endCol := 2, stmtNum := 1, count := 0, functionName := "G" }]
    all_code := [] }

/-- A statement executor for which `BAD` fails and every other statement
records itself as a created table. -/
def wExec : String → List String → Option (List String) :=
  fun stmt tables => if stmt = "BAD" then none else some (tables ++ [stmt])


/-! ## Proof development -/

theorem sanitizeChars_eq_runsSpec (l : List Char) :
    sanitizeChars false l = sanitizeRunsSpec l ∧
      sanitizeChars true l = sanitizeRunsSpec (l.dropWhile (fun d => !isWordChar d)) := by
  induction l with
  | nil => simp [sanitizeChars, sanitizeRunsSpec]
  | cons c rest ih =>
    by_cases hw : isWordChar c
    · constructor
      · simp [sanitizeChars, sanitizeRunsSpec, hw, ih.1]
      · simp [List.dropWhile, hw, sanitizeChars, sanitizeRunsSpec, ih.1]
    · constructor
      · simp [sanitizeChars, sanitizeRunsSpec, hw, ih.2]
      · simp [List.dropWhile, hw, sanitizeChars, ih.2]

theorem findFuncDecl_eq_none_of_not_in (decls : List GoDecl) (line : Nat)
    (h : ∀ f : FuncDecl, GoDecl.func f ∈ decls →
      ¬(f.startLine ≤ line ∧ line ≤ f.endLine)) :
    findFuncDecl decls line = none := by
  induction decls with
  | nil => rfl
  | cons d rest ih =>
    cases d with
    | func f =>
      have hf := h f (by simp)
      simp only [findFuncDecl, if_neg hf]
      exact ih fun g hg => h g (List.mem_cons_of_mem _ hg)
    | other =>
      exact ih fun g hg => h g (List.mem_cons_of_mem _ hg)

theorem findFuncDecl_mem_of_some (decls : List GoDecl) (line : Nat) (f : FuncDecl)
    (h : findFuncDecl decls line = some f) :
    GoDecl.func f ∈ decls ∧ f.startLine ≤ line ∧ line ≤ f.endLine := by
  induction decls with
  | nil => simp [findFuncDecl] at h
  | cons d rest ih =>
    cases d with
    | func g =>
      by_cases hg : g.startLine ≤ line ∧ line ≤ g.endLine
      · simp only [findFuncDecl, if_pos hg, Option.some.injEq] at h
        subst h
        exact ⟨by simp, hg⟩
      · simp only [findFuncDecl, if_neg hg] at h
        have := ih h
        exact ⟨List.mem_cons_of_mem _ this.1, this.2⟩
    | other =>
      have := ih h
      exact ⟨List.mem_cons_of_mem _ this.1, this.2⟩

theorem execStmts_append_fail {α : Type} (execStmt : String → α → Option α)
    (pre : List String) (bad : String) (post : List String) (db db1 : α)
    (hpre : execStmts execStmt pre db = some db1)
    (hbad : goTrimSpace bad ≠ "")
    (hfail : execStmt (goTrimSpace bad) db1 = none) :
    execStmts execStmt (pre ++ bad :: post) db = none := by
  induction pre generalizing db with
  | nil =>
    simp only [execStmts] at hpre
    cases hpre
    simp only [List.nil_append, execStmts, if_neg hbad, hfail]
  | cons stmt rest ih =>
    simp only [execStmts] at hpre ⊢
    by_cases ht : goTrimSpace stmt = ""
    · simp only [if_pos ht] at hpre ⊢
      exact ih db hpre
    · simp only [if_neg ht] at hpre ⊢
      cases hstep : execStmt (goTrimSpace stmt) db with
      | none => simp [hstep] at hpre
      | some db2 =>
        simp only [hstep] at hpre ⊢
        exact ih db2 hpre

theorem decodeLoopF_fuel_irrelevant :
    ∀ (fuel₁ fuel₂ : Nat) (input : List Char),
      input.length < fuel₁ → input.length < fuel₂ →
      decodeLoopF fuel₁ input = decodeLoopF fuel₂ input := by
  intro fuel₁
  induction fuel₁ with
  | zero => intro fuel₂ input h1; omega
  | succ f ih =>
    intro fuel₂ input h1 h2
    obtain ⟨g, rfl⟩ : ∃ g, fuel₂ = g + 1 := ⟨fuel₂ - 1, by omega⟩
    simp only [decodeLoopF]
    cases hstep : decodeOne input with
    | eof => rfl
    | fail e => rfl
    | next ev rest =>
      have hrest := rest.property
      dsimp only
      rw [ih g rest.val (by omega) (by omega)]

theorem collect_cons_good (env : CorrelatorEnv) (pkgDir : String)
    (t : TestEvent) (rest : List TestEvent) (fs : List String)
    (h : goodTest env t) :
    collectTestCoverageResults env pkgDir (t :: rest) fs =
      match collectTestCoverageResults env pkgDir rest (stepFs fs t) with
      | (fs3, .error e) => (fs3, .error e)
      | (fs3, .ok more) => (fs3, .ok (testRows env pkgDir t ++ more)) := by
  obtain ⟨hrun, profiles, hps⟩ := h
  simp only [collectTestCoverageResults, hrun, hps, stepFs, testRows]

theorem collect_cons_bad (env : CorrelatorEnv) (pkgDir : String)
    (t : TestEvent) (rest : List TestEvent) (fs : List String)
    (h : badTest env t) :
    collectTestCoverageResults env pkgDir (t :: rest) fs =
      collectTestCoverageResults env pkgDir rest (stepFs fs t) := by
  rcases h with hrun | ⟨hrun, e, hps⟩
  · simp only [collectTestCoverageResults, hrun, stepFs]
  · simp only [collectTestCoverageResults, hrun, hps, stepFs]

theorem collect_all_good (env : CorrelatorEnv) (pkgDir : String) :
    ∀ (ts : List TestEvent), (∀ t ∈ ts, goodTest env t) → ∀ fs : List String,
      collectTestCoverageResults env pkgDir ts fs =
        (ts.foldl stepFs fs, .ok (ts.flatMap (testRows env pkgDir))) := by
  intro ts
  induction ts with
  | nil => intro _ fs; simp [collectTestCoverageResults]
  | cons t rest ih =>
    intro h fs
    rw [collect_cons_good env pkgDir t rest fs (h t (by simp))]
    rw [ih (fun u hu => h u (List.mem_cons_of_mem _ hu)) (stepFs fs t)]
    simp

/-- Skip-and-continue: with every test but one succeeding end to end and
that one failing recoverably, the loop returns the other tests' rows and
no error. -/
theorem collect_skip_one (env : CorrelatorEnv) (pkgDir : String)
    (pre post : List TestEvent) (bad : TestEvent)
    (hgood : ∀ t ∈ pre ++ post, goodTest env t) (hbad : badTest env bad) :
    ∀ fs : List String,
      collectTestCoverageResults env pkgDir (pre ++ bad :: post) fs =
        ((pre ++ bad :: post).foldl stepFs fs,
          .ok ((pre ++ post).flatMap (testRows env pkgDir))) := by
  induction pre with
  | nil =>
    intro fs
    rw [List.nil_append, collect_cons_bad env pkgDir bad post fs hbad]
    rw [collect_all_good env pkgDir post (fun u hu => hgood u (by simpa using hu))]
    simp
  | cons t pre' ih =>
    intro fs
    have hgt : goodTest env t := hgood t (by simp)
    rw [List.cons_append, collect_cons_good env pkgDir t _ fs hgt]
    rw [ih (fun u hu => hgood u (by
      rcases List.mem_append.1 hu with h | h
      · exact List.mem_append.2 (Or.inl (List.mem_cons_of_mem _ h))
      · exact List.mem_append.2 (Or.inr h)))]
    simp

/-- A name absent from the filesystem that is no test's artifact name is
still absent after the loop. -/
theorem collect_preserves_absent (env : CorrelatorEnv) (pkgDir : String) :
    ∀ (ts : List TestEvent) (fs : List String) (x : String), x ∉ fs →
      (∀ t ∈ ts, coverageFileName t.test ≠ x) →
      x ∉ (collectTestCoverageResults env pkgDir ts fs).1 := by
  intro ts
  induction ts with
  | nil => intro fs x hx _; simpa [collectTestCoverageResults] using hx
  | cons t rest ih =>
    intro fs x hx hart
    have hxne : coverageFileName t.test ≠ x := hart t (by simp)
    have hxstep : x ∉ stepFs fs t := by
      intro hmem
      have hmem2 : x ∈ fsCreate fs (coverageFileName t.test) := List.mem_of_mem_erase hmem
      by_cases hc : coverageFileName t.test ∈ fs
      · rw [fsCreate, if_pos hc] at hmem2
        exact hx hmem2
      · rw [fsCreate, if_neg hc] at hmem2
        rcases List.mem_cons.1 hmem2 with h | h
        · exact hxne h.symm
        · exact hx h
    have hrest : ∀ u ∈ rest, coverageFileName u.test ≠ x :=
      fun u hu => hart u (List.mem_cons_of_mem _ hu)
    cases hrun : env.runTest t.test with
    | launchFailure =>
      simp only [collectTestCoverageResults, hrun]
      intro hmem
      exact hx (List.mem_of_mem_erase hmem)
    | exitFailure =>
      rw [collect_cons_bad env pkgDir t rest fs (Or.inl hrun)]
      exact ih (stepFs fs t) x hxstep hrest
    | ok =>
      cases hps : env.parseProfiles (coverageFileName t.test) with
      | error e =>
        rw [collect_cons_bad env pkgDir t rest fs (Or.inr ⟨hrun, e, hps⟩)]
        exact ih (stepFs fs t) x hxstep hrest
      | ok profiles =>
        rw [collect_cons_good env pkgDir t rest fs ⟨hrun, profiles, hps⟩]
        have hres := ih (stepFs fs t) x hxstep hrest
        cases hrec : collectTestCoverageResults env pkgDir rest (stepFs fs t) with
        | mk fs3 res =>
          rw [hrec] at hres
          cases res <;> simpa using hres

theorem blockRows_testName (parsed : Except String GoFile) (name pkg file : String)
    (blocks : List ProfileBlock) :
    ∀ r ∈ blockRows parsed name pkg file blocks, r.testName = name := by
  intro r hr
  obtain ⟨b, _, hb⟩ := List.mem_filterMap.1 hr
  cases hfn : Part003.getFunctionName parsed b.startLine with
  | error e => rw [hfn] at hb; cases hb
  | ok fn =>
    rw [hfn] at hb
    cases hb
    rfl

theorem profileRows_testName (env : CorrelatorEnv) (pkgDir name : String)
    (profiles : List Profile) :
    ∀ r ∈ profileRows env pkgDir name profiles, r.testName = name := by
  intro r hr
  obtain ⟨p, _, hp⟩ := List.mem_flatMap.1 hr
  exact blockRows_testName _ _ _ _ _ r hp

theorem testRows_testName (env : CorrelatorEnv) (pkgDir : String) (t : TestEvent) :
    ∀ r ∈ testRows env pkgDir t, r.testName = t.test := by
  intro r hr
  rw [testRows] at hr
  cases hps : env.parseProfiles (coverageFileName t.test) with
  | error e => rw [hps] at hr; cases hr
  | ok profiles =>
    rw [hps] at hr
    exact profileRows_testName env pkgDir t.test profiles r hr

/-- Every row the correlator emits carries the `Test` field of one of the
events it was handed. -/
theorem collect_rows_testName (env : CorrelatorEnv) (pkgDir : String) :
    ∀ (ts : List TestEvent) (fs : List String) (rows : List TestCoverageResult),
      (collectTestCoverageResults env pkgDir ts fs).2 = .ok rows →
      ∀ r ∈ rows, ∃ t ∈ ts, r.testName = t.test := by
  intro ts
  induction ts with
  | nil =>
    intro fs rows hok r hr
    simp only [collectTestCoverageResults] at hok
    cases hok
    cases hr
  | cons t rest ih =>
    intro fs rows hok r hr
    cases hrun : env.runTest t.test with
    | launchFailure =>
      simp only [collectTestCoverageResults, hrun] at hok
      cases hok
    | exitFailure =>
      rw [collect_cons_bad env pkgDir t rest fs (Or.inl hrun)] at hok
      obtain ⟨u, hu, heq⟩ := ih (stepFs fs t) rows hok r hr
      exact ⟨u, List.mem_cons_of_mem _ hu, heq⟩
    | ok =>
      cases hps : env.parseProfiles (coverageFileName t.test) with
      | error e =>
        rw [collect_cons_bad env pkgDir t rest fs (Or.inr ⟨hrun, e, hps⟩)] at hok
        obtain ⟨u, hu, heq⟩ := ih (stepFs fs t) rows hok r hr
        exact ⟨u, List.mem_cons_of_mem _ hu, heq⟩
      | ok profiles =>
        rw [collect_cons_good env pkgDir t rest fs ⟨hrun, profiles, hps⟩] at hok
        cases hrec : collectTestCoverageResults env pkgDir rest (stepFs fs t) with
        | mk fs3 res =>
          rw [hrec] at hok
          cases res with
          | error e => exact Except.noConfusion hok
          | ok more =>
            have hrows : rows = testRows env pkgDir t ++ more := by
              have heq : Except.ok (ε := String) (testRows env pkgDir t ++ more) = .ok rows := hok
              cases heq
              rfl
            subst hrows
            rcases List.mem_append.1 hr with hmem | hmem
            · exact ⟨t, by simp, testRows_testName env pkgDir t r hmem⟩
            · obtain ⟨u, hu, heq⟩ := ih (stepFs fs t) more (by rw [hrec]) r hmem
              exact ⟨u, List.mem_cons_of_mem _ hu, heq⟩

theorem fsCreate_nodup (fs : List String) (f : String) (h : fs.Nodup) :
    (fsCreate fs f).Nodup := by
  simp only [fsCreate]
  split
  · exact h
  · exact List.nodup_cons.2 ⟨by assumption, h⟩

theorem stepFs_nodup (fs : List String) (t : TestEvent) (h : fs.Nodup) :
    (stepFs fs t).Nodup :=
  (fsCreate_nodup fs _ h).erase _

/-- Artifact cleanup: when the run finishes without a fatal error and the
filesystem is duplicate-free, no processed test's artifact file remains. -/
theorem collect_cleanup (env : CorrelatorEnv) (pkgDir : String) :
    ∀ (ts : List TestEvent) (fs : List String), fs.Nodup →
      (∀ rows, (collectTestCoverageResults env pkgDir ts fs).2 = .ok rows →
        ∀ t ∈ ts, coverageFileName t.test ∉ (collectTestCoverageResults env pkgDir ts fs).1) := by
  intro ts
  induction ts with
  | nil => intro fs _ rows _ t ht; simp at ht
  | cons t rest ih =>
    intro fs hnd rows hok u hu
    have hndstep : (stepFs fs t).Nodup := stepFs_nodup fs t hnd
    have hstep_absent : coverageFileName t.test ∉ stepFs fs t :=
      (fsCreate_nodup fs _ hnd).not_mem_erase
    cases hrun : env.runTest t.test with
    | launchFailure =>
      simp only [collectTestCoverageResults, hrun] at hok
      cases hok
    | exitFailure =>
      rw [collect_cons_bad env pkgDir t rest fs (Or.inl hrun)] at hok ⊢
      rcases List.mem_cons.1 hu with rfl | hu'
      · by_cases hin : ∃ v ∈ rest, coverageFileName v.test = coverageFileName u.test
        · obtain ⟨v, hv, hveq⟩ := hin
          rw [← hveq]
          exact ih (stepFs fs u) hndstep rows hok v hv
        · push_neg at hin
          exact collect_preserves_absent env pkgDir rest (stepFs fs u) _ hstep_absent hin
      · exact ih (stepFs fs t) hndstep rows hok u hu'
    | ok =>
      cases hps : env.parseProfiles (coverageFileName t.test) with
      | error e =>
        rw [collect_cons_bad env pkgDir t rest fs (Or.inr ⟨hrun, e, hps⟩)] at hok ⊢
        rcases List.mem_cons.1 hu with rfl | hu'
        · by_cases hin : ∃ v ∈ rest, coverageFileName v.test = coverageFileName u.test
          · obtain ⟨v, hv, hveq⟩ := hin
            rw [← hveq]
            exact ih (stepFs fs u) hndstep rows hok v hv
          · push_neg at hin
            exact collect_preserves_absent env pkgDir rest (stepFs fs u) _ hstep_absent hin
        · exact ih (stepFs fs t) hndstep rows hok u hu'
      | ok profiles =>
        rw [collect_cons_good env pkgDir t rest fs ⟨hrun, profiles, hps⟩] at hok ⊢
        cases hrec : collectTestCoverageResults env pkgDir rest (stepFs fs t) with
        | mk fs3 res =>
          rw [hrec] at hok
          cases res with
          | error e => exact Except.noConfusion hok
          | ok more =>
            have hok' : (collectTestCoverageResults env pkgDir rest (stepFs fs t)).2 = .ok more := by
              rw [hrec]
            rcases List.mem_cons.1 hu with rfl | hu'
            · by_cases hin : ∃ v ∈ rest, coverageFileName v.test = coverageFileName u.test
              · obtain ⟨v, hv, hveq⟩ := hin
                have hres := ih (stepFs fs u) hndstep more hok' v hv
                rw [hrec] at hres
                rw [← hveq]
                exact hres
              · push_neg at hin
                have hres := collect_preserves_absent env pkgDir rest (stepFs fs u) _ hstep_absent hin
                rw [hrec] at hres
                exact hres
            · have hres := ih (stepFs fs t) hndstep more hok' u hu'
              rw [hrec] at hres
              exact hres

theorem participates_iff (e : TestEvent) :
    participates e = true ↔ e.test ≠ "" ∧ (e.action = "pass" ∨ e.action = "fail") := by
  simp [participates]

theorem collectTestResults_ok_filter (run : GoTestRun) (res : List TestEvent)
    (h : collectTestResults run = .ok res) :
    ∀ e ∈ res, participates e = true := by
  rw [collectTestResults] at h
  split at h
  · cases h
  · cases hparse : parseTestOutput run.stdout with
    | error e => simp only [hparse] at h; cases h
    | ok tests =>
      simp only [hparse] at h
      cases hfind : tests.find? isBuildFailEvent with
      | some e => simp only [hfind] at h; cases h
      | none =>
        simp only [hfind] at h
        cases h
        intro e he
        exact (List.mem_filter.1 he).2

theorem findFuncDecl_none_not_in (decls : List GoDecl) (line : Nat)
    (h : findFuncDecl decls line = none) :
    ∀ f : FuncDecl, GoDecl.func f ∈ decls →
      ¬(f.startLine ≤ line ∧ line ≤ f.endLine) := by
  induction decls with
  | nil => intro f hf; cases hf
  | cons d rest ih =>
    intro f hf
    cases d with
    | func g =>
      by_cases hg : g.startLine ≤ line ∧ line ≤ g.endLine
      · simp only [findFuncDecl, if_pos hg] at h
        cases h
      · simp only [findFuncDecl, if_neg hg] at h
        rcases List.mem_cons.1 hf with heq | hmem
        · cases heq; exact hg
        · exact ih h f hmem
    | other =>
      rcases List.mem_cons.1 hf with heq | hmem
      · cases heq
      · exact ih h f hmem

theorem coverageRowsForBlocks_spec (parsed : Except String GoFile)
    (pkg fn : String) :
    ∀ (blocks : List ProfileBlock) (rows : List CoverageResult),
      MainRev.coverageRowsForBlocks parsed pkg fn blocks = .ok rows →
      ∀ r ∈ rows, r.package = pkg ∧ r.file = fn ∧
        AstUtils.getFunctionName parsed r.startLine = .ok r.functionName := by
  intro blocks
  induction blocks with
  | nil =>
    intro rows h r hr
    simp only [MainRev.coverageRowsForBlocks] at h
    cases h
    cases hr
  | cons b rest ih =>
    intro rows h r hr
    simp only [MainRev.coverageRowsForBlocks] at h
    cases hfn : AstUtils.getFunctionName parsed b.startLine with
    | error e => simp only [hfn] at h; cases h
    | ok fn2 =>
      simp only [hfn] at h
      cases hrec : MainRev.coverageRowsForBlocks parsed pkg fn rest with
      | error e => simp only [hrec] at h; cases h
      | ok rows2 =>
        simp only [hrec] at h
        cases h
        rcases List.mem_cons.1 hr with rfl | hmem
        · exact ⟨rfl, rfl, hfn⟩
        · exact ih rows2 hrec r hmem

theorem mainCollect_go_spec (sourceFile : String → Except String GoFile)
    (pkgDir : String) :
    ∀ (profiles : List Profile) (rows : List CoverageResult),
      MainRev.collectCoverageResults.go sourceFile pkgDir profiles = .ok rows →
      ∀ r ∈ rows,
        AstUtils.getFunctionName (sourceFile (pkgDir ++ "/" ++ r.file)) r.startLine =
          .ok r.functionName := by
  intro profiles
  induction profiles with
  | nil =>
    intro rows h r hr
    simp only [MainRev.collectCoverageResults.go] at h
    cases h
    cases hr
  | cons p rest ih =>
    intro rows h r hr
    simp only [MainRev.collectCoverageResults.go] at h
    cases hblocks : MainRev.coverageRowsForBlocks
        (sourceFile (pkgDir ++ "/" ++ filepathBase p.fileName))
        (filepathDir p.fileName) (filepathBase p.fileName) p.blocks with
    | error e => simp only [hblocks] at h; cases h
    | ok rows1 =>
      simp only [hblocks] at h
      cases hrec : MainRev.collectCoverageResults.go sourceFile pkgDir rest with
      | error e => simp only [hrec] at h; cases h
      | ok rows2 =>
        simp only [hrec] at h
        cases h
        rcases List.mem_append.1 hr with hmem | hmem
        · obtain ⟨hpkg, hfile, hfn⟩ :=
            coverageRowsForBlocks_spec _ _ _ p.blocks rows1 hblocks r hmem
          rw [hfile]
          exact hfn
        · exact ih rows2 hrec r hmem

/-- C2 (amended): for a line outside every top-level declaration's range,
the ast_utils.go locator returns an empty name and no error — and its
caller, the aggregate collector, emits the block's row with that empty
function name — while the test-coverage (part_003) locator variant
instead returns a `function not found` error, which its caller absorbs by
skipping just that block. -/
theorem getFunctionName_no_decl (file : GoFile) (line : Nat)
    (pkg fn nm : String) (b : ProfileBlock)
    (h : ∀ f : FuncDecl, GoDecl.func f ∈ file.decls →
      ¬(f.startLine ≤ line ∧ line ≤ f.endLine))
    (hb : b.startLine = line) :
    AstUtils.getFunctionName (.ok file) line = .ok "" ∧
    MainRev.coverageRowsForBlocks (.ok file) pkg fn [b] =
      .ok [{ package := pkg, file := fn,
             startLine := b.startLine, startCol := b.startCol,
             endLine := b.endLine, endCol := b.endCol,
             stmtNum := b.numStmt, count := b.count,
             functionName := "" }] ∧
    Part003.getFunctionName (.ok file) line = .error "function not found" ∧
    blockRows (.ok file) nm pkg fn [b] = [] := by
  have hnone := findFuncDecl_eq_none_of_not_in file.decls line h
  refine ⟨?_, ?_, ?_, ?_⟩
  · simp [AstUtils.getFunctionName, hnone]
  · simp [MainRev.coverageRowsForBlocks, AstUtils.getFunctionName, hb, hnone]
  · simp [Part003.getFunctionName, hnone]
  · simp [blockRows, Part003.getFunctionName, hb, hnone]

/-- C3 (amended): in the main-package aggregate path (coverage.go), every
emitted `CoverageResult` row carries the function name the ast_utils
locator resolves from the block's file and start line. -/
theorem mainCollectCoverage_functionName (sourceFile : String → Except String GoFile)
    (pkgDir : String) (profiles : List Profile) (rows : List CoverageResult)
    (h : MainRev.collectCoverageResults sourceFile pkgDir (.ok profiles) = .ok rows) :
    ∀ r ∈ rows,
      AstUtils.getFunctionName (sourceFile (pkgDir ++ "/" ++ r.file)) r.startLine =
        .ok r.functionName := by
  have hgo : MainRev.collectCoverageResults.go sourceFile pkgDir profiles = .ok rows := h
  exact mainCollect_go_spec sourceFile pkgDir profiles rows hgo

/-- C4: a schema script in which any single (non-blank) statement fails
creates nothing: the whole batch is rolled back and the visible database
state is the pre-transaction state. -/
theorem createTables_atomic {α : Type} (execStmt : String → α → Option α)
    (db db1 : α) (ddl : String) (pre post : List String) (bad : String)
    (hsplit : splitOnSemi ddl.data = pre ++ bad :: post)
    (hpre : execStmts execStmt pre db = some db1)
    (hbad : goTrimSpace bad ≠ "")
    (hfail : execStmt (goTrimSpace bad) db1 = none) :
    CreateTablesFromDDL execStmt db ddl = (db, false) := by
  rw [CreateTablesFromDDL, hsplit,
    execStmts_append_fail execStmt pre bad post db db1 hpre hbad hfail]

/-- C5: a line inside some top-level function declaration's range
resolves to that declaration's name, provided — as in any parseable Go
file — distinct top-level declarations occupy disjoint line ranges.
Nested function literals are expressions, not declarations, so a line
inside a closure still resolves to the outermost enclosing top-level
function (whose range contains it). -/
theorem getFunctionName_in_decl (file : GoFile) (line : Nat) (f : FuncDecl)
    (hmem : GoDecl.func f ∈ file.decls)
    (hin : f.startLine ≤ line ∧ line ≤ f.endLine)
    (hdisj : ∀ g h : FuncDecl, GoDecl.func g ∈ file.decls →
      GoDecl.func h ∈ file.decls → g ≠ h →
      g.endLine < h.startLine ∨ h.endLine < g.startLine) :
    AstUtils.getFunctionName (.ok file) line = .ok f.name := by
  cases hfind : findFuncDecl file.decls line with
  | none => exact absurd hin (findFuncDecl_none_not_in file.decls line hfind f hmem)
  | some g =>
    obtain ⟨hgmem, hgin⟩ := findFuncDecl_mem_of_some file.decls line g hfind
    have hgf : g = f := by
      by_contra hne
      rcases hdisj g f hgmem hmem hne with hlt | hlt <;> omega
    subst hgf
    simp [AstUtils.getFunctionName, hfind]

/-- C6 (amended): the sanitizer replaces every maximal run of one or more
characters outside `[A-Za-z0-9_]` with a single `_` (so distinct test
names can still collide), and the re-run's artifact file is the sanitized
name suffixed with `.out`. -/
theorem sanitize_runs_and_artifact (s : String) :
    sanitizeTestName s = ⟨sanitizeRunsSpec s.data⟩ ∧
    coverageFileName s = sanitizeTestName s ++ ".out" :=
  ⟨congrArg String.mk (sanitizeChars_eq_runsSpec s.data).1, rfl⟩

/-- C6 counterexample: on `"a/ b"` the run `"/ "` collapses to one `_`,
so the code's result differs from replacing each character
individually. -/
theorem sanitize_not_perChar :
    sanitizeTestName "a/ b" = "a_b" ∧ sanitizePerCharSpec "a/ b" = "a__b" ∧
      sanitizeTestName "a/ b" ≠ sanitizePerCharSpec "a/ b" := by
  refine ⟨rfl, rfl, ?_⟩
  decide

/-- C1: when exactly one of the events fails its isolated re-run or its
profile parse and every other event succeeds end to end, the correlator
returns the other events' correlated rows, in order, with no error. -/
theorem correlator_skips_one (env : CorrelatorEnv) (pkgDir : String)
    (pre post : List TestEvent) (bad : TestEvent) (fs : List String)
    (hgood : ∀ t ∈ pre ++ post, goodTest env t) (hbad : badTest env bad) :
    (collectTestCoverageResults env pkgDir (pre ++ bad :: post) fs).2 =
      .ok ((pre ++ post).flatMap (testRows env pkgDir)) := by
  rw [collect_skip_one env pkgDir pre post bad hgood hbad fs]

/-- C7: the per-test artifact is written and deleted inside each
iteration on every non-fatal path, so whenever the correlator returns
without a fatal error, no processed event's artifact file remains on a
duplicate-free filesystem. -/
theorem correlator_cleanup (env : CorrelatorEnv) (pkgDir : String)
    (ts : List TestEvent) (fs : List String) (rows : List TestCoverageResult)
    (hnd : fs.Nodup)
    (hok : (collectTestCoverageResults env pkgDir ts fs).2 = .ok rows) :
    ∀ t ∈ ts, coverageFileName t.test ∉ (collectTestCoverageResults env pkgDir ts fs).1 :=
  collect_cleanup env pkgDir ts fs hnd rows hok

/-- C8: when the harness launches, its stream decodes, and no build
failure is reported, the event collector returns exactly the decoded
events with a non-empty test name and action `pass` or `fail` — so `skip`
and package-level events never reach the correlator. -/
theorem collector_filters_events (run : GoTestRun) (tests : List TestEvent)
    (hlaunch : run.launchOk = true)
    (hparse : parseTestOutput run.stdout = .ok tests)
    (hbuild : ∀ e ∈ tests, isBuildFailEvent e = false) :
    collectTestResults run = .ok (tests.filter participates) ∧
      ∀ e, e ∈ tests.filter participates ↔
        e ∈ tests ∧ e.test ≠ "" ∧ (e.action = "pass" ∨ e.action = "fail") := by
  constructor
  · rw [collectTestResults, hlaunch]
    simp only [Bool.not_true, Bool.false_eq_true, if_false, hparse]
    have hfind : tests.find? isBuildFailEvent = none :=
      List.find?_eq_none.2 (fun e he => by simp [hbuild e he])
    simp only [hfind]
  · intro e
    rw [List.mem_filter, participates_iff]

/-- C9: every `test_coverage` row the pipeline inserts carries the `Test`
field of one of the events the pipeline previously inserted into
`all_tests`, and those events all have action `pass` or `fail`. -/
theorem testCoverage_names_in_allTests (env : PipelineEnv) (pkgDir : String)
    (db0 db2 : DB) (fs0 fs2 : List String)
    (h : PopulateTables env pkgDir db0 fs0 = .ok (db2, fs2))
    (h0 : db0.test_coverage = []) :
    ∀ r ∈ db2.test_coverage, ∃ e ∈ db2.all_tests,
      e.test = r.testName ∧ (e.action = "pass" ∨ e.action = "fail") := by
  rw [PopulateTables] at h
  cases hptr : PopulateTestResults env db0 with
  | error e => rw [hptr] at h; cases h
  | ok p1 =>
    obtain ⟨db1, testResults⟩ := p1
    rw [hptr] at h
    cases hpcr : PopulateCoverageResults env db1 with
    | error e => simp only [hpcr] at h; cases h
    | ok dbA =>
      simp only [hpcr] at h
      cases hptcr : PopulateTestCoverageResults env pkgDir dbA testResults fs0 with
      | error e => simp only [hptcr] at h; cases h
      | ok p3 =>
        obtain ⟨db3, fs3⟩ := p3
        simp only [hptcr] at h
        cases hpc : PopulateCode env db3 with
        | error e => simp only [hpc] at h; cases h
        | ok db4 =>
          simp only [hpc] at h
          cases h
          -- unpack each stage
          rw [PopulateTestResults] at hptr
          cases hcol : collectTestResults env.goTest with
          | error e => rw [hcol] at hptr; cases hptr
          | ok results =>
            simp only [hcol] at hptr
            cases hptr
            rw [PopulateCoverageResults] at hpcr
            cases hagg : CollectorRev.collectCoverageResults env.aggProfiles with
            | error e => rw [hagg] at hpcr; cases hpcr
            | ok aggRows =>
              simp only [hagg] at hpcr
              cases hpcr
              rw [PopulateTestCoverageResults] at hptcr
              cases hcor : collectTestCoverageResults env.correlator pkgDir testResults fs0 with
              | mk fsx resx =>
                rw [hcor] at hptcr
                cases resx with
                | error e => cases hptcr
                | ok rows =>
                  cases hptcr
                  rw [PopulateCode] at hpc
                  cases hcode : env.codeLines with
                  | error e => rw [hcode] at hpc; cases hpc
                  | ok lines =>
                    simp only [hcode] at hpc
                    cases hpc
                    intro r hr
                    simp only [h0, List.nil_append] at hr
                    have hcor2 : (collectTestCoverageResults env.correlator pkgDir testResults fs0).2
                        = .ok rows := by rw [hcor]
                    obtain ⟨t, ht, heq⟩ :=
                      collect_rows_testName env.correlator pkgDir testResults fs0 rows hcor2 r hr
                    have hpart := collectTestResults_ok_filter env.goTest testResults hcol t ht
                    rw [participates_iff] at hpart
                    exact ⟨t, List.mem_append_right _ ht, heq.symm, hpart.2⟩

/-- C10: the stream decoder is a total function of the input bytes — its
iteration count is bounded by the input length, so any fuel above that
length is never exhausted and yields the same result — and on an input of
only whitespace (in particular, the empty input) the loop hits `io.EOF`
before reading any record and returns an empty event list with no
error. -/
theorem parseTestOutput_total (s : String) (fuel : Nat)
    (hfuel : s.data.length < fuel) :
    decodeLoopF fuel s.data = parseTestOutput s ∧
      ((∀ c ∈ s.data, isJsonWs c = true) → parseTestOutput s = .ok []) := by
  constructor
  · rw [parseTestOutput]
    exact decodeLoopF_fuel_irrelevant fuel (s.data.length + 1) s.data hfuel (by omega)
  · intro hws
    have hnil : s.data.dropWhile isJsonWs = [] := by
      rw [List.dropWhile_eq_nil_iff]
      exact hws
    have heof : decodeOne s.data = .eof := by
      unfold decodeOne
      split
      · rfl
      · rename_i c rest heq
        rw [hnil] at heq
        cases heq
    rw [parseTestOutput]
    simp [decodeLoopF, heof]

/-- C1 witness: three events, `TestB` failing its re-run, the other two
succeeding; the correlator returns exactly their rows and no error. -/
theorem correlator_skips_one_witness :
    (∀ t ∈ [evA] ++ [evC], goodTest wEnv t) ∧ badTest wEnv evB ∧
      (collectTestCoverageResults wEnv "pkg" ([evA] ++ evB :: [evC]) []).2 =
        .ok (([evA] ++ [evC]).flatMap (testRows wEnv "pkg")) := by
  have hgood : ∀ t ∈ [evA] ++ [evC], goodTest wEnv t := by
    intro t ht
    rcases List.mem_cons.1 ht with rfl | ht2
    · exact ⟨rfl, [wProfileFG], rfl⟩
    · rcases List.mem_cons.1 ht2 with rfl | ht3
      · exact ⟨rfl, [wProfileFG], rfl⟩
      · cases ht3
  have hbad : badTest wEnv evB := Or.inl rfl
  exact ⟨hgood, hbad, correlator_skips_one wEnv "pkg" [evA] [evC] evB [] hgood hbad⟩

/-- C2 witness: line 1 of the scenario file lies in no declaration; the
ast_utils locator yields `ok ""` and its caller a row with empty
function name, the part_003 variant an error its caller drops. -/
theorem getFunctionName_no_decl_witness :
    AstUtils.getFunctionName (.ok wFileFG) 1 = .ok "" ∧
    MainRev.coverageRowsForBlocks (.ok wFileFG) "pkg" "foo.go" [⟨1, 1, 2, 2, 1, 0⟩] =
      .ok [{ package := "pkg", file := "foo.go", startLine := 1, startCol := 1,
             endLine := 2, endCol := 2, stmtNum := 1, count := 0, functionName := "" }] ∧
    Part003.getFunctionName (.ok wFileFG) 1 = .error "function not found" ∧
    blockRows (.ok wFileFG) "TestA" "pkg" "foo.go" [⟨1, 1, 2, 2, 1, 0⟩] = [] := by
  exact getFunctionName_no_decl wFileFG 1 "pkg" "foo.go" "TestA" ⟨1, 1, 2, 2, 1, 0⟩
    (by
      intro f hf
      simp [wFileFG] at hf
      rcases hf with rfl | rfl <;> simp)
    rfl

/-- C2 counterexample: the part_003 revision of `getFunctionName` — one
of the two locator variants in the tree — does NOT return `ok ""` for
line 1 of the scenario file (a line outside every declaration); it
returns an error. -/
theorem part003_locator_errors_on_missing :
    Part003.getFunctionName (.ok wFileFG) 1 ≠ .ok "" ∧
    Part003.getFunctionName (.ok wFileFG) 1 = .error "function not found" :=
  ⟨fun h => Except.noConfusion h, rfl⟩

/-- C3 witness: the spec's F/G scenario through coverage.go's aggregate
path: two rows named `F` and `G`, each equal to the locator's answer. -/
theorem mainCollectCoverage_functionName_witness :
    MainRev.collectCoverageResults (fun _ => .ok wFileFG) "pkg" (.ok [wProfileFG]) =
      .ok wRowsFG ∧
    wRowsFG.map (fun r => r.functionName) = ["F", "G"] ∧
    ∀ r ∈ wRowsFG,
      AstUtils.getFunctionName ((fun _ => .ok wFileFG) ("pkg" ++ "/" ++ r.file)) r.startLine =
        .ok r.functionName :=
  ⟨rfl, rfl,
    mainCollectCoverage_functionName (fun _ => .ok wFileFG) "pkg" [wProfileFG] wRowsFG rfl⟩

/-- C3 counterexample: the internal/collector revision of
`collectCoverageResults`, on the same F/G profile, emits rows whose
function_name is empty rather than the locator's `F`. -/
theorem collectorCoverage_functionName_empty :
    CollectorRev.collectCoverageResults (.ok [wProfileFG]) = .ok
      [{ package := "pkg/foo.go", file := "pkg/foo.go", startLine := 3, startCol := 1,
         endLine := 5, endCol := 2, stmtNum := 1, count := 1, functionName := "" },
       { package := "pkg/foo.go", file := "pkg/foo.go", startLine := 7, startCol := 1,
         endLine := 9, endCol := 2, stmtNum := 1, count := 0, functionName := "" }] ∧
    AstUtils.getFunctionName (.ok wFileFG) 3 = .ok "F" ∧
    ("" : String) ≠ "F" := by
  refine ⟨rfl, rfl, ?_⟩
  decide

/-- C4 witness: a three-statement script whose middle statement fails
creates no tables from an empty database. -/
theorem createTables_atomic_witness :
    splitOnSemi "CREATE TABLE a;BAD;CREATE TABLE b".data =
      ["CREATE TABLE a"] ++ "BAD" :: ["CREATE TABLE b"] ∧
    execStmts wExec ["CREATE TABLE a"] [] = some ["CREATE TABLE a"] ∧
    goTrimSpace "BAD" ≠ "" ∧
    CreateTablesFromDDL wExec [] "CREATE TABLE a;BAD;CREATE TABLE b" = ([], false) := by
  refine ⟨rfl, rfl, by decide, ?_⟩
  exact createTables_atomic wExec [] ["CREATE TABLE a"] "CREATE TABLE a;BAD;CREATE TABLE b"
    ["CREATE TABLE a"] ["CREATE TABLE b"] "BAD" rfl rfl (by decide) rfl

/-- C5 witness: line 8 lies inside `G`'s range (7–9) and resolves to
`G`. -/
theorem getFunctionName_in_decl_witness :
    AstUtils.getFunctionName (.ok wFileFG) 8 = .ok "G" := by
  exact getFunctionName_in_decl wFileFG 8 ⟨"G", 7, 9⟩
    (by simp [wFileFG])
    (by constructor <;> decide)
    (by
      intro g h hg hh hne
      simp [wFileFG] at hg hh
      rcases hg with rfl | rfl <;> rcases hh with rfl | rfl
      · exact absurd rfl hne
      · exact Or.inl (by decide)
      · exact Or.inr (by decide)
      · exact absurd rfl hne)

/-- C7 witness: a run with one success, one failed re-run and one
unparsable profile finishes with no artifact file on disk. -/
theorem correlator_cleanup_witness :
    ([] : List String).Nodup ∧
    (collectTestCoverageResults wEnv "pkg" [evA, evB, evD] []).2 = .ok
      [{ testName := "TestA", package := "pkg", file := "foo.go", startLine := 3, startCol := 1,
         endLine := 5, endCol := 2, stmtNum := 1, count := 1, functionName := "F" },
       { testName := "TestA", package := "pkg", file := "foo.go", startLine := 7, startCol := 1,
         endLine := 9, endCol := 2, stmtNum := 1, count := 0, functionName := "G" }] ∧
    ∀ t ∈ [evA, evB, evD],
      coverageFileName t.test ∉ (collectTestCoverageResults wEnv "pkg" [evA, evB, evD] []).1 := by
  refine ⟨List.nodup_nil, rfl, ?_⟩
  exact correlator_cleanup wEnv "pkg" [evA, evB, evD] []
    [{ testName := "TestA", package := "pkg", file := "foo.go", startLine := 3, startCol := 1,
       endLine := 5, endCol := 2, stmtNum := 1, count := 1, functionName := "F" },
     { testName := "TestA", package := "pkg", file := "foo.go", startLine := 7, startCol := 1,
       endLine := 9, endCol := 2, stmtNum := 1, count := 0, functionName := "G" }]
    List.nodup_nil rfl

/-- C8 witness: the pass/skip/package-level stream filters down to just
the pass event. -/
theorem collector_filters_events_witness :
    wRunC8.launchOk = true ∧
    parseTestOutput wRunC8.stdout = .ok wTestsC8 ∧
    (∀ e ∈ wTestsC8, isBuildFailEvent e = false) ∧
    collectTestResults wRunC8 = .ok (wTestsC8.filter participates) ∧
    wTestsC8.filter participates = [{ action := "pass", test := "TestA" }] := by
  refine ⟨rfl, rfl, by decide, ?_, rfl⟩
  exact (collector_filters_events wRunC8 wTestsC8 rfl rfl (by decide)).1

/-- C9 witness: the pipeline's one correlated test name `TestA` appears
in `all_tests` with action `pass`. -/
theorem testCoverage_names_in_allTests_witness :
    PopulateTables wPipeEnv "pkg" {} [] = .ok (wDB9, []) ∧
    ∀ r ∈ wDB9.test_coverage, ∃ e ∈ wDB9.all_tests,
      e.test = r.testName ∧ (e.action = "pass" ∨ e.action = "fail") :=
  ⟨rfl, testCoverage_names_in_allTests wPipeEnv "pkg" {} wDB9 [] [] rfl rfl⟩

/-- C10 witness: on the empty stream the loop stops at EOF immediately,
with any sufficient fuel. -/
theorem parseTestOutput_total_witness :
    ("" : String).data.length < 1 ∧
    decodeLoopF 1 ("" : String).data = parseTestOutput "" ∧
    parseTestOutput "" = .ok [] :=
  ⟨by decide, (parseTestOutput_total "" 1 (by decide)).1,
    (parseTestOutput_total "" 1 (by decide)).2 (by decide)⟩

end TQ
